import Mathlib

/-!
Shallow embedding of `src/imageserver/load-test/client.go` (the load-test
harness of the imageserver repository): the result reporter and its
percentile computation, the ramp-up admission logic of the rate-limited
dispatcher, the bounded discovered-identifier ring shared by the search
and download workloads, the workload-catalog loader `loadImages`, the
status handling of the upload client, and the shutdown behaviour of
`main` and of the reporter goroutine.

Durations are modelled as natural numbers of nanoseconds (Go's
`time.Duration` on the values this program produces is non-negative);
errors are modelled by their message strings or by small inductive
types distinguishing the distinct error values the Go code creates.
-/

namespace LoadTest

/-- One `report` record (client.go lines 55-58): the elapsed duration of one
request in nanoseconds and its optional error (`none` = success). -/
structure Report where
  time : Nat
  err : Option String
deriving DecidableEq, Repr, Inhabited

/-- The p99 index of `logReports` (client.go line 314): `len(reports) * 99 / 100`
in integer arithmetic. -/
def p99Index (n : Nat) : Nat := n * 99 / 100

/-- The sort of `logReports` (client.go line 308): the report window ordered by
ascending duration. -/
def sortReports (rs : List Report) : List Report :=
  rs.mergeSort (fun a b => a.time ≤ b.time)

/-- The report whose duration `logReports` prints as the p99 latency: the entry
at index `p99Index` of the window sorted ascending by duration. -/
def p99Report (rs : List Report) : Option Report :=
  (sortReports rs).get? (p99Index rs.length)

/-- The latency/error part of one summary line of `logReports`
(client.go lines 312-317). All figures are in milliseconds, matching the
`Nanoseconds() / 1000000` conversions in the source. -/
structure Summary where
  count : Nat
  avgMs : Nat
  p99Ms : Nat
  totalErrors : Nat
deriving DecidableEq, Repr

/-- Embedding of `logReports` (client.go lines 297-326) restricted to the data
it computes: `none` when the window is empty (the source then logs only the
qps figure), otherwise the average, p99 and error count of the window.
`totalTime` accumulates `r.time.Nanoseconds()/1000000` per report, as in the
source. -/
def logSummary (rs : List Report) : Option Summary :=
  if rs.length = 0 then none
  else
    let totalMs := (rs.map (fun r => r.time / 1000000)).sum
    some
      { count := rs.length
        avgMs := totalMs / rs.length
        p99Ms := ((sortReports rs).getD (p99Index rs.length) default).time / 1000000
        totalErrors := (rs.filter (fun r => r.err.isSome)).length }

end LoadTest

namespace LoadTest

/-- `percent` of the ramp-up branch of `loadTest` (client.go line 367):
`int(now.Sub(rampupStart) * 100 / rampup)`, with elapsed time and ramp
duration in nanoseconds. -/
def rampPercent (elapsed ramp : Nat) : Nat := elapsed * 100 / ramp

/-- Whether a dispatcher tick during ramp-up is admitted (client.go line 368):
the tick is skipped (`continue`) exactly when the uniform draw
`rand.Intn(100)` satisfies `draw > percent`, so it is admitted when
`draw ≤ percent`. -/
def rampAdmits (elapsed ramp draw : Nat) : Bool :=
  !(decide (draw > rampPercent elapsed ramp))

/-- The number of draws in `{0, ..., 99}` (the range of `rand.Intn(100)`) for
which a ramp-up tick is admitted; over the uniform draw the admission
probability is this count divided by 100. -/
def rampAdmitCount (elapsed ramp : Nat) : Nat :=
  ((Finset.range 100).filter (fun d => rampAdmits elapsed ramp d = true)).card

/-- Whether one iteration of the `loadTest` dispatcher loop (client.go lines
353-378) attempts to hand a request token to the worker pool. `rampupDone` is
the loop flag; `elapsed > ramp` models `now.After(rampupEnd)`. A tick that is
not admitted executes `continue`: no send on `requestChan`, hence no request
and no `report` for that tick. -/
def dispatchAttempt (rampupDone : Bool) (elapsed ramp draw : Nat) : Bool :=
  if rampupDone then true
  else if elapsed > ramp then true
  else rampAdmits elapsed ramp draw

end LoadTest

namespace LoadTest

/-- Capacity of the shared discovered-identifier ring
(client.go line 399: `make(chan string, 1000)`). -/
def ringCapacity : Nat := 1000

/-- Non-blocking receive from a buffered Go channel modelled as a FIFO list
(`select { case x := <-ch; default: }`): returns the front element and the
rest, or `none` with the ring unchanged when it is empty. -/
def tryPop : List String → Option String × List String
  | [] => (none, [])
  | x :: rest => (some x, rest)

/-- Non-blocking send on a buffered Go channel of capacity `cap`
(`select { case ch <- x: default: }`): appends when the buffer has room and
drops the item otherwise, never waiting. -/
def tryPush (cap : Nat) (ring : List String) (x : String) : List String :=
  if ring.length < cap then ring ++ [x] else ring

/-- The thumbnail marker of `downloadClient.makeRequest`
(client.go line 206). -/
def thumbMarker : String := "/download/thumbnail_"

/-- What the download client decides to do after its ring interaction:
fail with the no-targets error, or issue an HTTP GET for `url`. -/
inductive DownloadAction where
  | noTargets : DownloadAction
  | request : String → DownloadAction
deriving DecidableEq, Repr

/-- The error message a `DownloadAction` contributes before any network
activity: `noTargets` is the `fmt.Errorf("no download urls found")` of
client.go line 198; a `request` has produced no error yet. -/
def downloadActionError : DownloadAction → Option String
  | .noTargets => some "no download urls found"
  | .request _ => none

/-- Embedding of `downloadClient.makeRequest` up to the HTTP call
(client.go lines 189-211): non-blocking pop (an absent value leaves Go's
zero-value `""` in `url`), the empty-url error return, the non-blocking
re-insert of the popped value, and the probabilistic thumbnail rewrite
(`rand.Intn(100) == 0` modelled as `draw = 0`). Returns the chosen action
and the ring contents after the interaction. -/
def downloadPrepare (cap : Nat) (ring : List String) (draw : Nat) :
    DownloadAction × List String :=
  let popped := tryPop ring
  let url := popped.1.getD ""
  if url = "" then (.noTargets, popped.2)
  else
    let ring2 := tryPush cap popped.2 url
    let url2 :=
      if draw = 0 && url.startsWith thumbMarker then
        "/download/" ++ (url.drop thumbMarker.length)
      else url
    (.request url2, ring2)

/-- Embedding of the fan-out loop of `searchClient.makeRequest`
(client.go lines 178-185): pushes each decoded thumbnail identifier in order
with a non-blocking send, and `break LOOP` stops the whole loop at the first
send that would block (buffer full). -/
def pushLoop (cap : Nat) (ring : List String) : List String → List String
  | [] => ring
  | t :: rest =>
    if ring.length < cap then pushLoop cap (ring ++ [t]) rest else ring

/-- One interaction with the shared ring: a search request offering its
decoded identifier list, or a download request cycle with its random draw. -/
inductive RingOp where
  | searchWrite : List String → RingOp
  | downloadCycle : Nat → RingOp

/-- The ring contents after one `RingOp`. -/
def ringStep (cap : Nat) (ring : List String) : RingOp → List String
  | .searchWrite ids => pushLoop cap ring ids
  | .downloadCycle draw => (downloadPrepare cap ring draw).2

/-- The ring contents after a sequence of interactions, starting from the
empty ring `main` creates. -/
def runOps (cap : Nat) (ops : List RingOp) : List String :=
  ops.foldl (ringStep cap) []

/-- All identifiers the search workload ever offered to the ring across a
sequence of interactions. -/
def allSearchIds (ops : List RingOp) : List String :=
  ops.foldr (fun op acc => match op with
    | .searchWrite ids => ids ++ acc
    | .downloadCycle _ => acc) []

end LoadTest

namespace LoadTest

/-- One file visited by the `filepath.Walk` of `loadImages`, presented by the
data the walk callback consults (client.go lines 231-244): its base name, the
base name of its immediate parent directory (`filepath.Base(filepath.Dir(path))`),
and whether `info.Mode().IsRegular()` holds. -/
structure WalkFile where
  name : String
  parent : String
  isRegular : Bool
deriving DecidableEq, Repr

/-- One event of a directory walk: a visited file, or the walk callback being
handed an I/O error (`err != nil`), which the source returns, aborting the
walk. -/
inductive WalkEvent where
  | file : WalkFile → WalkEvent
  | ioError : String → WalkEvent
deriving DecidableEq, Repr

/-- Helper for `goExt`: the suffix of a character list starting at its LAST
dot, if any. -/
def extAux : List Char → Option (List Char)
  | [] => none
  | c :: rest =>
    match extAux rest with
    | some s => some s
    | none => if c = '.' then some (c :: rest) else none

/-- `filepath.Ext` on a base file name (no path separators): the suffix
beginning at the final dot, or the empty string when there is no dot. -/
def goExt (name : String) : String :=
  match extAux name.toList with
  | some s => ⟨s⟩
  | none => ""

/-- The extension filter of `loadImages` (client.go line 239): the walk keeps a
file exactly when its extension is `.jpg`, `.jpeg`, `.gif` or `.png`. -/
def isImageExt (e : String) : Bool :=
  e = ".jpg" || e = ".jpeg" || e = ".gif" || e = ".png"

/-- One entry of the fixture catalog (the `image` struct, client.go lines
50-53): a content reference and its category tag. -/
structure Image where
  name : String
  tag : String
deriving DecidableEq, Repr

/-- The two kinds of error `loadImages` can return: an I/O error propagated
verbatim from the walk, or the distinct `fmt.Errorf("no image files found")`
value created on line 247. -/
inductive LoadErr where
  | ioErr : String → LoadErr
  | noFixturesFound : LoadErr
deriving DecidableEq, Repr

/-- Whether the walk callback keeps a visited file (client.go lines 235-241):
it must be a regular file with an accepted image extension. -/
def keepsFile (f : WalkFile) : Bool :=
  f.isRegular && isImageExt (goExt f.name)

/-- The walk of `loadImages` (client.go lines 231-245): visits events in
order, collecting each kept file as an `image` tagged with its parent
directory name, and aborts at the first I/O error, returning it with the
images collected so far. -/
def walkCollect (acc : List Image) : List WalkEvent → List Image × Option LoadErr
  | [] => (acc, none)
  | .ioError m :: _ => (acc, some (.ioErr m))
  | .file f :: rest =>
    if keepsFile f then walkCollect (acc ++ [⟨f.name, f.parent⟩]) rest
    else walkCollect acc rest

/-- Embedding of `loadImages` (client.go lines 229-250): runs the walk, and
when it completed with zero images and no error, replaces the absent error
with the `noFixturesFound` value. -/
def loadImages (events : List WalkEvent) : List Image × Option LoadErr :=
  let r := walkCollect [] events
  if r.1.length = 0 && r.2.isNone then (r.1, some .noFixturesFound) else r

/-- Whether an event list contains an I/O error event. -/
def hasIoError (events : List WalkEvent) : Bool :=
  events.any (fun e => match e with | .ioError _ => true | .file _ => false)

/-- The matching files of an error-free walk: the kept files, in order, each
labelled by its parent directory name. -/
def matchingImages (events : List WalkEvent) : List Image :=
  events.filterMap (fun e => match e with
    | .file f => if keepsFile f then some ⟨f.name, f.parent⟩ else none
    | .ioError _ => none)

end LoadTest

namespace LoadTest

/-- `http.StatusOK`, the only status the upload client accepts
(client.go line 128). -/
def statusOK : Nat := 200

/-- The outcome error of `uploadClient.makeRequest` once a response was
received, i.e. the transport succeeded (client.go lines 128-131): `none` on
status 200, otherwise the `fmt.Errorf("unexpected status code: %d", code)`
message. -/
def uploadStatusOutcome (status : Nat) : Option String :=
  if status ≠ statusOK then some ("unexpected status code: " ++ toString status)
  else none

end LoadTest

namespace LoadTest

/-- One event observed by the `reporter` goroutine's select loop
(client.go lines 280-292): an incoming report on `reportChan`, a tick of its
10-second ticker, or the `done` channel closing. -/
inductive ReporterEvent where
  | outcome : Report → ReporterEvent
  | tick : ReporterEvent
  | shutdown : ReporterEvent
deriving DecidableEq

/-- The summaries the reporter emits while consuming `events` with `window`
already accumulated (client.go lines 274-295): a report is appended to the
window, a tick logs the window (one `logSummary`) and resets it, and
shutdown breaks the loop immediately — the pending window is dropped and
nothing further is emitted. -/
def reporterRun (window : List Report) : List ReporterEvent → List (Option Summary)
  | [] => []
  | .shutdown :: _ => []
  | .outcome r :: es => reporterRun (window ++ [r]) es
  | .tick :: es => logSummary window :: reporterRun [] es

/-- The number of ticker fires the reporter services before the first
shutdown event. -/
def ticksBeforeShutdown : List ReporterEvent → Nat
  | [] => 0
  | .shutdown :: _ => 0
  | .outcome _ :: es => ticksBeforeShutdown es
  | .tick :: es => ticksBeforeShutdown es + 1

end LoadTest

namespace LoadTest

/-- Joint state of `main` and one worker goroutine around shutdown: whether
`close(done)` has run, whether `main` has returned (process exit), whether
the worker is inside `client.makeRequest()`, and whether that call has
returned. -/
structure SysState where
  doneClosed : Bool
  mainExited : Bool
  workerInCall : Bool
  callReturned : Bool
deriving DecidableEq, Repr

/-- The initial state: `main` sleeping in line 417, the worker idle. -/
def sysInit : SysState :=
  { doneClosed := false, mainExited := false
    workerInCall := false, callReturned := false }

/-- Interleaved steps of `main` (client.go lines 417-419) and a worker
(client.go lines 339-350). `mainClose` is `close(done)` after the sleep;
`mainExit` is `main` returning, which is the next and only statement after
`close(done)` — it is enabled as soon as `done` is closed, with no
synchronisation on the worker, because the source contains none.
`workerStart` is a worker accepting a token and entering
`client.makeRequest()`; `workerFinish` is that call returning, which
requires a live process. -/
inductive SysStep where
  | workerStart : SysStep
  | workerFinish : SysStep
  | mainClose : SysStep
  | mainExit : SysStep

/-- Guarded transition function of the shutdown system; `none` when the step
is not enabled in the state. -/
def sysApply (s : SysState) : SysStep → Option SysState
  | .workerStart =>
    if s.mainExited || s.workerInCall then none
    else some { s with workerInCall := true, callReturned := false }
  | .workerFinish =>
    if s.workerInCall && !s.mainExited then
      some { s with workerInCall := false, callReturned := true }
    else none
  | .mainClose =>
    if s.doneClosed then none else some { s with doneClosed := true }
  | .mainExit =>
    if s.doneClosed && !s.mainExited then some { s with mainExited := true }
    else none

/-- Runs a list of steps from a state, failing if any step is disabled. -/
def sysRun (s : SysState) : List SysStep → Option SysState
  | [] => some s
  | st :: sts =>
    match sysApply s st with
    | some s2 => sysRun s2 sts
    | none => none

/-- Reachability of the shutdown system from the initial state. -/
def SysReachable (s : SysState) : Prop :=
  ∃ tr : List SysStep, sysRun sysInit tr = some s

end LoadTest

namespace LoadTest

theorem sortReports_perm (rs : List Report) : (sortReports rs).Perm rs :=
  List.mergeSort_perm rs _

theorem sortReports_length (rs : List Report) :
    (sortReports rs).length = rs.length :=
  (sortReports_perm rs).length_eq

theorem sortReports_pairwise (rs : List Report) :
    (sortReports rs).Pairwise (fun a b => a.time ≤ b.time) := by
  have h : (sortReports rs).Pairwise
      (fun a b : Report => (decide (a.time ≤ b.time)) = true) :=
    List.sorted_mergeSort
      (fun a b c hab hbc => by simp at hab hbc ⊢; omega)
      (fun a b => by simp; omega) rs
  exact h.imp (by simp)

theorem p99Index_lt (n : Nat) (h : 0 < n) : p99Index n < n := by
  have h100 : (0:Nat) < 100 := by norm_num
  rw [p99Index, Nat.div_lt_iff_lt_mul h100]
  omega

/-- C9: for every non-empty window of `N` reports the p99 index
`(N × 99) / 100` is strictly below `N`, hence the lookup into the sorted
window is in bounds and the summary computation is total: `p99Report` and
`logSummary` both return a value. -/
theorem p99_index_total (rs : List Report) (h : rs ≠ []) :
    p99Index rs.length < rs.length ∧
    (p99Report rs).isSome = true ∧
    (logSummary rs).isSome = true := by
  have hn : 0 < rs.length := List.length_pos.mpr h
  have hidx := p99Index_lt rs.length hn
  refine ⟨hidx, ?_, ?_⟩
  · rw [p99Report, List.get?_eq_get (by rw [sortReports_length]; exact hidx)]
    rfl
  · rw [logSummary]
    simp [Nat.pos_iff_ne_zero.mp hn]

/-- Closed instance of `p99_index_total` at a one-report window. -/
theorem p99_index_total_witness :
    p99Index [(⟨5, none⟩ : Report)].length < [(⟨5, none⟩ : Report)].length ∧
    (p99Report [(⟨5, none⟩ : Report)]).isSome = true ∧
    (logSummary [(⟨5, none⟩ : Report)]).isSome = true :=
  p99_index_total [⟨5, none⟩] (by simp)

end LoadTest

namespace LoadTest

theorem sortReports_get_le (rs : List Report) (i j : Fin (sortReports rs).length)
    (hij : i < j) :
    ((sortReports rs).get i).time ≤ ((sortReports rs).get j).time :=
  (List.pairwise_iff_get.mp (sortReports_pairwise rs)) i j hij

/-- C1: the reported p99 latency is the duration at index `⌊0.99 × N⌋` of the
window sorted ascending by duration — `logSummary` prints exactly the
duration of `p99Report` in milliseconds; for a window of one report it is
that report; and for a window of 100 reports in which one outlier strictly
dominates every other duration, it is the outlier (sorted index 99). -/
theorem p99_is_sorted_index :
    (∀ rs : List Report, rs ≠ [] →
      ∃ s, logSummary rs = some s ∧
        s.p99Ms = ((sortReports rs).getD (p99Index rs.length) default).time / 1000000) ∧
    (∀ r : Report, p99Report [r] = some r) ∧
    (∀ (out : Report) (rest : List Report), rest.length = 99 →
      (∀ x ∈ rest, x.time < out.time) →
      p99Report (out :: rest) = some out) := by
  refine ⟨?_, ?_, ?_⟩
  · intro rs h
    have hn : rs.length ≠ 0 := fun hh => h (List.length_eq_zero.mp hh)
    rw [logSummary]
    simp only [hn, if_false]
    exact ⟨_, rfl, rfl⟩
  · intro r
    rw [p99Report, sortReports]
    simp [p99Index]
  · intro out rest hlen hx
    have hslen : (sortReports (out :: rest)).length = 100 := by
      rw [sortReports_length]; simp [hlen]
    have hidx : p99Index (out :: rest).length = 99 := by
      simp [p99Index, hlen]
    have h99 : (99 : Nat) < (sortReports (out :: rest)).length := by omega
    rw [p99Report, hidx, List.get?_eq_get h99]
    congr 1
    have hperm : (sortReports (out :: rest)).Perm (out :: rest) := sortReports_perm _
    have hzmem : (sortReports (out :: rest)).get ⟨99, h99⟩ ∈ (out :: rest) :=
      hperm.mem_iff.mp (List.get_mem _ 99 h99)
    rcases List.mem_cons.mp hzmem with hz | hz
    · exact hz
    · exfalso
      have hlt : ((sortReports (out :: rest)).get ⟨99, h99⟩).time < out.time := hx _ hz
      have homem : out ∈ sortReports (out :: rest) :=
        hperm.mem_iff.mpr (List.mem_cons_self _ _)
      rcases List.mem_iff_get.mp homem with ⟨i, hi⟩
      have hi100 : (i : Nat) < 100 := hslen ▸ i.isLt
      by_cases hieq : (i : Nat) = 99
      · have heq : (sortReports (out :: rest)).get i
            = (sortReports (out :: rest)).get ⟨99, h99⟩ := by
          congr 1
          exact Fin.ext hieq
        rw [hi] at heq
        rw [← heq] at hlt
        exact absurd hlt (lt_irrefl _)
      · have hij : i < (⟨99, h99⟩ : Fin (sortReports (out :: rest)).length) :=
          Fin.lt_def.mpr (by simp; omega)
        have hle := sortReports_get_le (out :: rest) i ⟨99, h99⟩ hij
        rw [hi] at hle
        omega

/-- Closed instance of `p99_is_sorted_index`: with 99 reports of 1 ns and one
outlier of 10^9 ns, the p99 report is the outlier. -/
theorem p99_is_sorted_index_witness :
    p99Report ((⟨1000000000, none⟩ : Report) :: List.replicate 99 ⟨1, none⟩)
      = some ⟨1000000000, none⟩ :=
  p99_is_sorted_index.2.2 ⟨1000000000, none⟩ (List.replicate 99 ⟨1, none⟩)
    (by simp)
    (by
      intro x hx
      rw [List.eq_of_mem_replicate hx]
      norm_num)

end LoadTest

namespace LoadTest

/-- Counterexample to C2 at the concrete tick `elapsed = 0`, `ramp = 100`:
the computed percentage is 0, so the claimed admission probability is
`0 / 100 = 0`, yet exactly one of the 100 equally likely draws (`draw = 0`)
admits the tick — the code admits when `draw ≤ percent`, giving probability
`(percent + 1) / 100`, not `percent / 100`. -/
theorem ramp_probability_counterexample :
    rampPercent 0 100 = 0 ∧
    rampAdmitCount 0 100 = 1 ∧
    ¬ (rampAdmitCount 0 100 = rampPercent 0 100) := by
  refine ⟨rfl, ?_, ?_⟩ <;> decide

/-- C2 (amended): during the ramp-up window a tick is admitted exactly when
the uniform draw over `{0, ..., 99}` is at most
`percent = elapsed × 100 / ramp`, i.e. with probability
`min (percent + 1) 100 / 100`; a tick that is not admitted attempts no
request (no token is offered to the worker pool, so no Outcome is
produced for it). -/
theorem ramp_admission_rule (elapsed ramp draw : Nat)
    (_hr : 0 < ramp) (hw : elapsed ≤ ramp) :
    rampAdmitCount elapsed ramp = min (rampPercent elapsed ramp + 1) 100 ∧
    (rampAdmits elapsed ramp draw = true ↔ draw ≤ rampPercent elapsed ramp) ∧
    dispatchAttempt false elapsed ramp draw = rampAdmits elapsed ramp draw := by
  refine ⟨?_, ?_, ?_⟩
  · rw [rampAdmitCount]
    have hset : (Finset.range 100).filter (fun d => rampAdmits elapsed ramp d = true)
        = Finset.range (min (rampPercent elapsed ramp + 1) 100) := by
      ext d
      simp only [Finset.mem_filter, Finset.mem_range, rampAdmits]
      constructor
      · rintro ⟨hd, ha⟩
        simp at ha
        omega
      · intro hd
        refine ⟨by omega, ?_⟩
        simp
        omega
    rw [hset, Finset.card_range]
  · rw [rampAdmits]
    simp
  · rw [dispatchAttempt]
    simp [Nat.not_lt.mpr hw]

/-- Closed instance of `ramp_admission_rule` halfway through a 100 ns ramp
with draw 3. -/
theorem ramp_admission_rule_witness :
    rampAdmitCount 50 100 = min (rampPercent 50 100 + 1) 100 ∧
    (rampAdmits 50 100 3 = true ↔ 3 ≤ rampPercent 50 100) ∧
    dispatchAttempt false 50 100 3 = rampAdmits 50 100 3 :=
  ramp_admission_rule 50 100 3 (by norm_num) (by norm_num)

end LoadTest

namespace LoadTest

/-- C3: with the shared ring empty, the download client fails
deterministically before any network activity: the non-blocking pop returns
immediately with nothing (no waiting), the chosen action is `noTargets` — so
no HTTP request is issued — carrying the error message
`"no download urls found"`, for every capacity and random draw. -/
theorem download_empty_ring_fails (cap draw : Nat) :
    downloadPrepare cap [] draw = (.noTargets, []) ∧
    downloadActionError (downloadPrepare cap [] draw).1
      = some "no download urls found" ∧
    tryPop [] = (none, []) := by
  refine ⟨?_, ?_, rfl⟩ <;> rfl

end LoadTest

namespace LoadTest

/-- C5: once the upload client received a response (the transport succeeded),
its outcome carries no error exactly when the status is 200, and any other
status `c` produces the error message `"unexpected status code: c"`; in
particular status 500 yields `"unexpected status code: 500"`. -/
theorem upload_status_outcome (c : Nat) (h : c ≠ statusOK) :
    (∀ d : Nat, uploadStatusOutcome d = none ↔ d = statusOK) ∧
    uploadStatusOutcome c = some ("unexpected status code: " ++ toString c) ∧
    uploadStatusOutcome 500 = some "unexpected status code: 500" := by
  refine ⟨?_, ?_, by rfl⟩
  · intro d
    rw [uploadStatusOutcome]
    by_cases hd : d = statusOK <;> simp [hd]
  · rw [uploadStatusOutcome, if_pos h]

/-- Closed instance of `upload_status_outcome` at status 500. -/
theorem upload_status_outcome_witness :
    (∀ d : Nat, uploadStatusOutcome d = none ↔ d = statusOK) ∧
    uploadStatusOutcome 500 = some ("unexpected status code: " ++ toString 500) ∧
    uploadStatusOutcome 500 = some "unexpected status code: 500" :=
  upload_status_outcome 500 (by decide)

end LoadTest

namespace LoadTest

theorem walkCollect_no_error (events : List WalkEvent) :
    ∀ acc, hasIoError events = false →
      walkCollect acc events = (acc ++ matchingImages events, none) := by
  induction events with
  | nil => intro acc _; simp [walkCollect, matchingImages]
  | cons e rest ih =>
    intro acc he
    cases e with
    | ioError m => simp [hasIoError] at he
    | file f =>
      have he2 : hasIoError rest = false := by
        simp [hasIoError] at he ⊢
        exact he
      by_cases hk : keepsFile f = true
      · rw [walkCollect, if_pos hk, ih _ he2]
        simp [matchingImages, hk]
      · rw [walkCollect, if_neg hk, ih _ he2]
        simp [matchingImages, hk]

theorem walkCollect_error (pre : List WalkEvent) (m : String)
    (post : List WalkEvent) :
    ∀ acc, hasIoError pre = false →
      walkCollect acc (pre ++ .ioError m :: post)
        = (acc ++ matchingImages pre, some (.ioErr m)) := by
  induction pre with
  | nil => intro acc _; simp [walkCollect, matchingImages]
  | cons e rest ih =>
    intro acc he
    cases e with
    | ioError m2 => simp [hasIoError] at he
    | file f =>
      have he2 : hasIoError rest = false := by
        simp [hasIoError] at he ⊢
        exact he
      by_cases hk : keepsFile f = true
      · rw [List.cons_append, walkCollect, if_pos hk, ih _ he2]
        simp [matchingImages, hk]
      · rw [List.cons_append, walkCollect, if_neg hk, ih _ he2]
        simp [matchingImages, hk]

theorem walkCollect_some_error (events : List WalkEvent) :
    ∀ acc, hasIoError events = true →
      ∃ m, (walkCollect acc events).2 = some (.ioErr m) := by
  induction events with
  | nil => intro acc he; simp [hasIoError] at he
  | cons e rest ih =>
    intro acc he
    cases e with
    | ioError m => exact ⟨m, rfl⟩
    | file f =>
      have he2 : hasIoError rest = true := by
        simpa [hasIoError] using he
      by_cases hk : keepsFile f = true
      · rw [walkCollect, if_pos hk]; exact ih _ he2
      · rw [walkCollect, if_neg hk]; exact ih _ he2

/-- C4: `loadImages` returns the `noFixturesFound` error exactly when the
walk completed with zero matching files and no I/O error; when the walk hits
an I/O error, that error is returned verbatim instead; and on an error-free
walk the collected catalog consists exactly of the regular files whose
extension is `.jpg`, `.jpeg`, `.gif` or `.png`, each labelled with its
immediate parent directory name. -/
theorem loadImages_spec (pre : List WalkEvent) (m : String)
    (post : List WalkEvent) (hpre : hasIoError pre = false) :
    (∀ events, (loadImages events).2 = some .noFixturesFound ↔
      hasIoError events = false ∧ matchingImages events = []) ∧
    (loadImages (pre ++ .ioError m :: post)).2 = some (.ioErr m) ∧
    (∀ events, hasIoError events = false →
      (loadImages events).1 = matchingImages events) ∧
    (∀ f, keepsFile f = true ↔
      f.isRegular = true ∧ isImageExt (goExt f.name) = true) := by
  refine ⟨?_, ?_, ?_, ?_⟩
  · intro events
    rw [loadImages]
    by_cases he : hasIoError events = false
    · rw [walkCollect_no_error events [] he]
      by_cases hm : matchingImages events = []
      · simp [hm, he]
      · simp [hm, he]
    · have he2 : hasIoError events = true := by
        simpa using he
      rcases walkCollect_some_error events [] he2 with ⟨m2, hm2⟩
      simp only [hm2]
      simp [he2, hm2]
  · rw [loadImages, walkCollect_error pre m post [] hpre]
    simp
  · intro events he
    rw [loadImages, walkCollect_no_error events [] he]
    by_cases hm : matchingImages events = [] <;> simp [hm]
  · intro f
    rw [keepsFile]
    simp

/-- Closed instance of `loadImages_spec`: a walk seeing `data/cats/a.jpg`
then an I/O error returns that error verbatim, with the one matching image
collected so far. -/
theorem loadImages_spec_witness :
    (loadImages ([WalkEvent.file ⟨"a.jpg", "cats", true⟩]
        ++ .ioError "read failure" :: [])).2 = some (.ioErr "read failure") :=
  (loadImages_spec [WalkEvent.file ⟨"a.jpg", "cats", true⟩] "read failure" []
    (by rfl)).2.1

end LoadTest

namespace LoadTest

theorem pushLoop_length_le (cap : Nat) (ids : List String) :
    ∀ ring : List String, ring.length ≤ cap →
      (pushLoop cap ring ids).length ≤ cap := by
  induction ids with
  | nil => intro ring h; exact h
  | cons t rest ih =>
    intro ring h
    rw [pushLoop]
    by_cases hlt : ring.length < cap
    · rw [if_pos hlt]
      exact ih _ (by simpa using Nat.succ_le_of_lt hlt)
    · rw [if_neg hlt]
      exact h

theorem tryPush_length_le (cap : Nat) (ring : List String) (x : String)
    (h : ring.length ≤ cap) : (tryPush cap ring x).length ≤ cap := by
  rw [tryPush]
  by_cases hlt : ring.length < cap
  · rw [if_pos hlt]; simp; omega
  · rw [if_neg hlt]; exact h

theorem downloadPrepare_length_le (cap : Nat) (ring : List String) (draw : Nat)
    (h : ring.length ≤ cap) :
    ((downloadPrepare cap ring draw).2).length ≤ cap := by
  rw [downloadPrepare]
  cases ring with
  | nil => exact Nat.zero_le cap
  | cons u rest =>
    simp only [tryPop, Option.getD_some]
    by_cases hu : u = ""
    · rw [if_pos hu]
      simp only [List.length_cons] at h
      show rest.length ≤ cap
      omega
    · rw [if_neg hu]
      show (tryPush cap rest u).length ≤ cap
      exact tryPush_length_le cap rest u
        (by simp only [List.length_cons] at h; omega)

theorem ringStep_length_le (cap : Nat) (ring : List String) (op : RingOp)
    (h : ring.length ≤ cap) : (ringStep cap ring op).length ≤ cap := by
  cases op with
  | searchWrite ids => exact pushLoop_length_le cap ids ring h
  | downloadCycle draw => exact downloadPrepare_length_le cap ring draw h

theorem foldl_ringStep_length_le (cap : Nat) (ops : List RingOp) :
    ∀ ring : List String, ring.length ≤ cap →
      (ops.foldl (ringStep cap) ring).length ≤ cap := by
  induction ops with
  | nil => intro ring h; simpa using h
  | cons op rest ih =>
    intro ring h
    exact ih _ (ringStep_length_le cap ring op h)

/-- C6: the shared discovered-identifier ring never holds more than its
fixed capacity of 1000 entries, whatever sequence of search-workload writes
and download pop/re-insert cycles is performed; and a non-blocking send to a
full ring drops the item, leaving the ring unchanged, rather than making
the writer wait. -/
theorem ring_occupancy_bounded (ring : List String) (x : String)
    (hfull : ringCapacity ≤ ring.length) :
    (∀ ops : List RingOp, (runOps ringCapacity ops).length ≤ ringCapacity) ∧
    tryPush ringCapacity ring x = ring := by
  constructor
  · intro ops
    exact foldl_ringStep_length_le ringCapacity ops [] (by simp)
  · rw [tryPush, if_neg (by omega)]

/-- Closed instance of `ring_occupancy_bounded`: offering one more
identifier to a ring already holding 1000 leaves it unchanged. -/
theorem ring_occupancy_bounded_witness :
    tryPush ringCapacity (List.replicate 1000 "t") "u" = List.replicate 1000 "t" :=
  (ring_occupancy_bounded (List.replicate 1000 "t") "u"
    (by rw [List.length_replicate]; exact Nat.le_refl 1000)).2

end LoadTest

namespace LoadTest

theorem mem_tryPush (cap : Nat) (ring : List String) (y x : String)
    (h : x ∈ tryPush cap ring y) : x ∈ ring ∨ x = y := by
  rw [tryPush] at h
  by_cases hlt : ring.length < cap
  · rw [if_pos hlt] at h
    simpa using h
  · rw [if_neg hlt] at h
    exact Or.inl h

theorem mem_pushLoop (cap : Nat) (ids : List String) :
    ∀ ring x, x ∈ pushLoop cap ring ids → x ∈ ring ∨ x ∈ ids := by
  induction ids with
  | nil => intro ring x h; exact Or.inl h
  | cons t rest ih =>
    intro ring x h
    rw [pushLoop] at h
    by_cases hlt : ring.length < cap
    · rw [if_pos hlt] at h
      rcases ih _ x h with h2 | h2
      · rcases List.mem_append.mp h2 with h3 | h3
        · exact Or.inl h3
        · exact Or.inr (by simpa using Or.inl (by simpa using h3))
      · exact Or.inr (List.mem_cons_of_mem t h2)
    · rw [if_neg hlt] at h
      exact Or.inl h

theorem mem_downloadPrepare (cap : Nat) (ring : List String) (draw : Nat)
    (x : String) (h : x ∈ (downloadPrepare cap ring draw).2) : x ∈ ring := by
  rw [downloadPrepare] at h
  cases ring with
  | nil => simp [tryPop] at h
  | cons u rest =>
    simp only [tryPop, Option.getD_some] at h
    by_cases hu : u = ""
    · rw [if_pos hu] at h
      exact List.mem_cons_of_mem u h
    · rw [if_neg hu] at h
      have h2 : x ∈ tryPush cap rest u := h
      rcases mem_tryPush cap rest u x h2 with h3 | h3
      · exact List.mem_cons_of_mem u h3
      · exact h3 ▸ List.mem_cons_self u rest

theorem mem_ringStep (cap : Nat) (ring : List String) (op : RingOp) (x : String)
    (h : x ∈ ringStep cap ring op) :
    x ∈ ring ∨ x ∈ allSearchIds [op] := by
  cases op with
  | searchWrite ids =>
    rcases mem_pushLoop cap ids ring x h with h2 | h2
    · exact Or.inl h2
    · exact Or.inr (by simpa [allSearchIds] using h2)
  | downloadCycle draw => exact Or.inl (mem_downloadPrepare cap ring draw x h)

theorem allSearchIds_cons_search (ids : List String) (ops : List RingOp) :
    allSearchIds (.searchWrite ids :: ops) = ids ++ allSearchIds ops := rfl

theorem allSearchIds_cons_download (d : Nat) (ops : List RingOp) :
    allSearchIds (.downloadCycle d :: ops) = allSearchIds ops := rfl

theorem mem_foldl_ringStep (cap : Nat) (ops : List RingOp) :
    ∀ ring x, x ∈ ops.foldl (ringStep cap) ring →
      x ∈ ring ∨ x ∈ allSearchIds ops := by
  induction ops with
  | nil => intro ring x h; exact Or.inl h
  | cons op rest ih =>
    intro ring x h
    rcases ih _ x h with h2 | h2
    · rcases mem_ringStep cap ring op x h2 with h3 | h3
      · exact Or.inl h3
      · cases op with
        | searchWrite ids =>
          rw [allSearchIds_cons_search]
          have h4 : x ∈ ids := by simpa [allSearchIds] using h3
          exact Or.inr (List.mem_append.mpr (Or.inl h4))
        | downloadCycle draw =>
          exact absurd h3 (by simp [allSearchIds])
    · right
      cases op with
      | searchWrite ids =>
        rw [allSearchIds_cons_search]
        exact List.mem_append.mpr (Or.inr h2)
      | downloadCycle draw =>
        rw [allSearchIds_cons_download]
        exact h2

/-- C10: the download client re-inserts exactly the identifier it popped —
for a non-empty ring the ring after the cycle is the popped head pushed
back onto the remainder, before any rewrite is applied — so a download
cycle never adds an identifier that was not already in the ring, and after
any sequence of ring interactions every identifier in the ring was offered
by some search-workload write. -/
theorem ring_provenance (u : String) (hu : u ≠ "") :
    (∀ cap ring draw x, x ∈ (downloadPrepare cap ring draw).2 → x ∈ ring) ∧
    (∀ cap rest draw, (downloadPrepare cap (u :: rest) draw).2 = tryPush cap rest u) ∧
    (∀ ops x, x ∈ runOps ringCapacity ops → x ∈ allSearchIds ops) := by
  refine ⟨mem_downloadPrepare, ?_, ?_⟩
  · intro cap rest draw
    rw [downloadPrepare]
    simp only [tryPop, Option.getD_some]
    rw [if_neg hu]
  · intro ops x h
    rcases mem_foldl_ringStep ringCapacity ops [] x h with h2 | h2
    · simp at h2
    · exact h2

/-- Closed instance of `ring_provenance`: after a search write of two
identifiers and one download cycle, the popped identifier `"a"` was
re-inserted unchanged and every ring entry came from the search write. -/
theorem ring_provenance_witness :
    (downloadPrepare ringCapacity ("a" :: ["b"]) 0).2 = tryPush ringCapacity ["b"] "a" :=
  (ring_provenance "a" (by decide)).2.1 ringCapacity ["b"] 0

end LoadTest

namespace LoadTest

theorem reporterRun_append_shutdown (pre : List ReporterEvent)
    (post : List ReporterEvent) (hpre : ReporterEvent.shutdown ∉ pre) :
    ∀ w, reporterRun w (pre ++ .shutdown :: post) = reporterRun w pre := by
  induction pre with
  | nil => intro w; simp [reporterRun]
  | cons e rest ih =>
    intro w
    have hsr : ReporterEvent.shutdown ∉ rest :=
      fun hc => hpre (List.mem_cons_of_mem e hc)
    cases e with
    | outcome r => rw [List.cons_append, reporterRun, reporterRun, ih hsr]
    | tick => rw [List.cons_append, reporterRun, reporterRun, ih hsr]
    | shutdown => exact absurd (List.mem_cons_self _ _) hpre

theorem reporterRun_tick_count (pre : List ReporterEvent) :
    ∀ w, (reporterRun w pre).length = ticksBeforeShutdown pre := by
  induction pre with
  | nil => intro w; rfl
  | cons e rest ih =>
    intro w
    cases e with
    | outcome r => rw [reporterRun, ticksBeforeShutdown, ih]
    | tick => rw [reporterRun, ticksBeforeShutdown, List.length_cons, ih]
    | shutdown => rfl

/-- C8: once the reporter observes the shutdown signal it emits nothing
further — events after the shutdown are irrelevant to its output, an
immediate shutdown flushes nothing regardless of the accumulated window
(the partial window is discarded), and in total it emits exactly one
summary per ticker fire serviced before the shutdown. -/
theorem reporter_no_flush_on_shutdown (w : List Report)
    (pre post : List ReporterEvent) (hpre : ReporterEvent.shutdown ∉ pre) :
    reporterRun w (pre ++ .shutdown :: post) = reporterRun w pre ∧
    reporterRun w (.shutdown :: post) = [] ∧
    (reporterRun w pre).length = ticksBeforeShutdown pre :=
  ⟨reporterRun_append_shutdown pre post hpre w, rfl,
    reporterRun_tick_count pre w⟩

/-- Closed instance of `reporter_no_flush_on_shutdown`: a window with one
pending report, one serviced tick before shutdown, one tick after. -/
theorem reporter_no_flush_on_shutdown_witness :
    reporterRun [⟨3, none⟩]
        ([.outcome ⟨1, none⟩, .tick] ++ .shutdown :: [.tick])
      = reporterRun [⟨3, none⟩] [.outcome ⟨1, none⟩, .tick] ∧
    reporterRun [⟨3, none⟩] (.shutdown :: [.tick]) = [] ∧
    (reporterRun [⟨3, none⟩] [.outcome ⟨1, none⟩, .tick]).length
      = ticksBeforeShutdown [.outcome ⟨1, none⟩, .tick] :=
  reporter_no_flush_on_shutdown [⟨3, none⟩] [.outcome ⟨1, none⟩, .tick]
    [.tick] (by decide)

end LoadTest

namespace LoadTest

/-- Counterexample to C7: the claim that after the shutdown broadcast the
process waits for every already-started Workload Client call to return
before the run is finished would mean that in every reachable state where
`main` has exited no worker call is still in flight. The concrete
interleaving worker-starts-call, `close(done)`, `main` returns — enabled
because `main`'s return follows `close(done)` with no synchronisation on
the workers — reaches a state with `mainExited` and `workerInCall` both
true and the call never returned. -/
theorem main_no_wait_counterexample :
    ¬ (∀ s : SysState, SysReachable s →
        s.mainExited = true → s.workerInCall = false) := by
  intro hclaim
  have hr : SysReachable
      { doneClosed := true, mainExited := true
        workerInCall := true, callReturned := false } :=
    ⟨[.workerStart, .mainClose, .mainExit], rfl⟩
  have h := hclaim _ hr rfl
  simp at h

/-- C7 (amended): after the shutdown signal is broadcast, `main` returns
immediately — its exit is enabled in every state where `done` is closed,
whatever the worker is doing — and an interleaving is reachable in which
the process is finished while a Workload Client call is still in flight:
in-flight calls are abandoned at process exit, not awaited. -/
theorem main_exits_without_waiting (s : SysState)
    (hd : s.doneClosed = true) (hm : s.mainExited = false) :
    (sysApply s .mainExit).isSome = true ∧
    (∃ s2, SysReachable s2 ∧ s2.mainExited = true ∧
      s2.workerInCall = true ∧ s2.callReturned = false) := by
  constructor
  · rw [sysApply, hd, hm]
    rfl
  · exact ⟨{ doneClosed := true, mainExited := true
             workerInCall := true, callReturned := false },
      ⟨[.workerStart, .mainClose, .mainExit], rfl⟩, rfl, rfl, rfl⟩

/-- Closed instance of `main_exits_without_waiting` at the state just after
`close(done)` with the worker mid-call. -/
theorem main_exits_without_waiting_witness :
    (sysApply
      { doneClosed := true, mainExited := false
        workerInCall := true, callReturned := false } .mainExit).isSome = true :=
  (main_exits_without_waiting
    { doneClosed := true, mainExited := false
      workerInCall := true, callReturned := false } rfl rfl).1

end LoadTest
